import Mathlib

/-!
Verification of the utility/config/server components of the
`automation-Infra` repository (rust-template), via a shallow embedding.

Conventions of the embedding:
* Rust `u64`/`u16`/`usize` values become `Nat`; wrapping `u64` arithmetic is
  made explicit with `% 2 ^ 64`.
* Clock reads (`current_timestamp()`) become an explicit `now : Nat`
  parameter; stateful methods become functions `input → state → output × state`.
* The `Mutex`-guarded fields are modelled by the plain data they guard
  (each method is atomic in the source, so a method call is one transition).
* Fallible Rust code returning `Result<T, Error>` becomes `Except Error T`.
-/

/-- Shallow embedding of `error::Error` (src/error.rs): ten variants, each
carrying a message string.  The `Io`/`Serialization` payloads (wrapped
`std::io::Error` / `serde_json::Error`) are modelled by their display string. -/
inductive Error where
  | InvalidInput : String → Error
  | Config : String → Error
  | Io : String → Error
  | Serialization : String → Error
  | Network : String → Error
  | Database : String → Error
  | Auth : String → Error
  | Permission : String → Error
  | NotFound : String → Error
  | Internal : String → Error
deriving DecidableEq

/-- The `Except.isOk` test spelled out, so statements about success/failure are
about an executable function of this file. -/
def isOk {E A : Type} : Except E A → Bool
  | .ok _ => true
  | .error _ => false

/-! ## Rate limiter (src/utils.rs, `RateLimiter`) -/

/-- State of `utils::RateLimiter`: the `Mutex<Vec<u64>>` of admission
timestamps plus the two immutable parameters.  `window` is
`Duration::as_secs` of the Rust field. -/
structure RateLimiter where
  requests : List Nat
  limit : Nat
  window : Nat

/-- Rust `RateLimiter::new`: empty timestamp log. -/
def RateLimiter.new (limit window : Nat) : RateLimiter :=
  { requests := [], limit := limit, window := window }

/-- Rust `RateLimiter::is_allowed`, with the clock read `now` explicit.
Mirrors the source: compute `window_start = now.saturating_sub(window)`
(`Nat` subtraction saturates), retain timestamps `≥ window_start`, admit
(appending `now`) iff the retained count is below `limit`. -/
def is_allowed (now : Nat) (rl : RateLimiter) : Bool × RateLimiter :=
  let window_start := now - rl.window
  let requests := rl.requests.filter (fun ts => decide (window_start ≤ ts))
  if requests.length < rl.limit then
    (true, { requests := requests ++ [now], limit := rl.limit, window := rl.window })
  else
    (false, { requests := requests, limit := rl.limit, window := rl.window })

/-- Rust `RateLimiter::current_count`, with the clock read `now` explicit:
counts stored timestamps `≥ now.saturating_sub(window)` without mutating. -/
def current_count (now : Nat) (rl : RateLimiter) : Nat :=
  (rl.requests.filter (fun ts => decide (now - rl.window ≤ ts))).length

/-- A sequence of `is_allowed` calls at the given clock times, returning the
list of admission results and the final state. -/
def runCalls : RateLimiter → List Nat → List Bool × RateLimiter
  | rl, [] => ([], rl)
  | rl, t :: ts =>
    let r := is_allowed t rl
    let rest := runCalls r.2 ts
    (r.1 :: rest.1, rest.2)

/-! ## Metrics collector (src/utils.rs, `MetricsCollector`), counters only.

The `HashMap<String, u64>` of counters is modelled as an association list
keyed by counter name (lookup is by key, so the map order is irrelevant to
every observation).  The gauges map holds `f64` values and no claim touches
it, so it is omitted.  Rust `u64` addition wraps modulo `2 ^ 64` (release
semantics); the wrap is explicit below. -/

def UINT64_MOD : Nat := 2 ^ 64

/-- Rust `MetricsCollector::increment_counter`:
`*counters.entry(name).or_insert(0) += value`, wrapping at `2 ^ 64`. -/
def increment_counter (counters : List (String × Nat)) (name : String) (value : Nat) :
    List (String × Nat) :=
  match counters with
  | [] => [(name, (0 + value) % UINT64_MOD)]
  | (k, v) :: rest =>
    if k = name then (k, (v + value) % UINT64_MOD) :: rest
    else (k, v) :: increment_counter rest name value

/-- Rust `MetricsCollector::get_counter`: stored value, or 0 when absent
(`copied().unwrap_or(0)`). -/
def get_counter (counters : List (String × Nat)) (name : String) : Nat :=
  match counters with
  | [] => 0
  | (k, v) :: rest => if k = name then v else get_counter rest name

/-- C7: starting from a collector in which `x` is absent,
`increment_counter x a` then `increment_counter x b` yields
`get_counter x = (a + b) % 2^64` (wrapping per u64 semantics; `a` and `b`
are u64 values, hence `< 2^64`), and `get_counter` of any name that was
never incremented returns 0. -/
theorem metrics_counter_spec (x : String) (a b : Nat)
    (ha : a < UINT64_MOD) (hb : b < UINT64_MOD) :
    get_counter (increment_counter (increment_counter [] x a) x b) x
      = (a + b) % UINT64_MOD ∧
    ∀ y, y ≠ x →
      get_counter (increment_counter (increment_counter [] x a) x b) y = 0 := by
  constructor
  · simp [increment_counter, get_counter, Nat.mod_eq_of_lt ha, Nat.add_mod_left]
  · intro y hy
    have hxy : ¬ (x = y) := fun h => hy h.symm
    simp [increment_counter, get_counter, hxy]

/-- Witness for C7 at `x := "x"`, `a := 2`, `b := 3`, unknown name `"z"`. -/
theorem metrics_counter_spec_witness :
    get_counter (increment_counter (increment_counter [] "x" 2) "x" 3) "x" = 5 ∧
    get_counter (increment_counter (increment_counter [] "x" 2) "x" 3) "z" = 0 := by
  have h := metrics_counter_spec "x" 2 3 (by decide) (by decide)
  exact ⟨by simpa using h.1, h.2 "z" (by decide)⟩

/-! ## Rate limiter lemmas -/

theorem filter_ge_eq_self (w : Nat) (l : List Nat) (h : ∀ v ∈ l, w ≤ v) :
    l.filter (fun ts => decide (w ≤ ts)) = l := by
  apply List.filter_eq_self.mpr
  intro a ha
  simpa using h a ha

theorem filter_ge_eq_nil (w : Nat) (l : List Nat) (h : ∀ v ∈ l, v < w) :
    l.filter (fun ts => decide (w ≤ ts)) = [] := by
  apply List.filter_eq_nil_iff.mpr
  intro a ha
  simpa using Nat.not_le.mpr (h a ha)

/-- When every stored timestamp survives the prune and the count is under
the limit, `is_allowed` admits and appends `now`. -/
theorem is_allowed_admit (now : Nat) (rl : RateLimiter)
    (hkeep : ∀ v ∈ rl.requests, now - rl.window ≤ v)
    (hlt : rl.requests.length < rl.limit) :
    is_allowed now rl
      = (true, { requests := rl.requests ++ [now], limit := rl.limit,
                 window := rl.window }) := by
  simp only [is_allowed]
  rw [filter_ge_eq_self _ _ hkeep]
  simp [hlt]

/-- When every stored timestamp survives the prune and the count has
reached the limit, `is_allowed` rejects and the log is unchanged. -/
theorem is_allowed_reject (now : Nat) (rl : RateLimiter)
    (hkeep : ∀ v ∈ rl.requests, now - rl.window ≤ v)
    (hge : rl.limit ≤ rl.requests.length) :
    is_allowed now rl
      = (false, { requests := rl.requests, limit := rl.limit,
                  window := rl.window }) := by
  simp only [is_allowed]
  rw [filter_ge_eq_self _ _ hkeep]
  simp [Nat.not_lt.mpr hge]

/-- Admission run: calls at times within `[t, t + W]` against a log of
timestamps `≥ t`, with room under the limit, are all admitted in order. -/
theorem runCalls_admits (L W t : Nat) (times : List Nat) :
    ∀ pre : List Nat,
      (∀ u ∈ times, t ≤ u ∧ u ≤ t + W) →
      (∀ v ∈ pre, t ≤ v) →
      pre.length + times.length ≤ L →
      runCalls { requests := pre, limit := L, window := W } times
        = (List.replicate times.length true,
           { requests := pre ++ times, limit := L, window := W }) := by
  induction times with
  | nil =>
    intro pre _ _ _
    simp [runCalls]
  | cons u rest ih =>
    intro pre htimes hpre hlen
    have hu : t ≤ u ∧ u ≤ t + W := htimes u (by simp)
    have hkeep : ∀ v ∈ pre, u - W ≤ v := by
      intro v hv
      have h1 := hpre v hv
      omega
    have hlt : pre.length < L := by
      simp only [List.length_cons] at hlen
      omega
    have hstep := is_allowed_admit u { requests := pre, limit := L, window := W }
      hkeep hlt
    have hrec := ih (pre ++ [u])
      (fun v hv => htimes v (List.mem_cons_of_mem _ hv))
      (by
        intro v hv
        rcases List.mem_append.mp hv with h | h
        · exact hpre v h
        · simp at h
          omega)
      (by
        simp only [List.length_append, List.length_cons, List.length_nil] at *
        omega)
    simp only [runCalls]
    rw [hstep]
    simp only []
    rw [hrec]
    simp [List.replicate_succ]

/-- C1: with limit `L > 0` and window `W`, starting fresh: the first `L`
calls, all at times in `[t, t + W]` where `t` is the time of the first call,
each return `true`; an `(L+1)`-th call `u` still within the window returns
`false`; and once strictly more than `W` seconds have elapsed past every
admitted timestamp, `is_allowed` returns `true` again. -/
theorem rate_limiter_window_spec (L W t : Nat) (times : List Nat) (u : Nat)
    (hL : 0 < L)
    (hlen : times.length = L)
    (hfirst : times.head? = some t)
    (hin : ∀ v ∈ times, t ≤ v ∧ v ≤ t + W)
    (hu : t ≤ u ∧ u ≤ t + W) :
    (runCalls (RateLimiter.new L W) times).1 = List.replicate L true ∧
    (is_allowed u (runCalls (RateLimiter.new L W) times).2).1 = false ∧
    ∀ t2, (∀ v ∈ times, v + W < t2) →
      (is_allowed t2 (is_allowed u (runCalls (RateLimiter.new L W) times).2).2).1
        = true := by
  have hrun := runCalls_admits L W t times [] hin (by simp) (by simp [hlen])
  have state2 : (runCalls (RateLimiter.new L W) times).2
      = { requests := times, limit := L, window := W } := by
    rw [show RateLimiter.new L W
          = { requests := [], limit := L, window := W } from rfl, hrun]
    simp
  have results : (runCalls (RateLimiter.new L W) times).1
      = List.replicate L true := by
    rw [show RateLimiter.new L W
          = { requests := [], limit := L, window := W } from rfl, hrun, hlen]
  have hkeep : ∀ v ∈ times, u - W ≤ v := by
    intro v hv
    have h1 := (hin v hv).1
    have h2 := hu.2
    omega
  have hrej := is_allowed_reject u { requests := times, limit := L, window := W }
    hkeep (by simp [hlen])
  refine ⟨results, ?_, ?_⟩
  · rw [state2, hrej]
  · intro t2 ht2
    rw [state2, hrej]
    simp only [is_allowed]
    rw [filter_ge_eq_nil _ _ (by
      intro v hv
      have := ht2 v hv
      omega)]
    simp [hL]

/-- Witness for C1: limit 2, window 10, admissions at 100 and 105, a third
call at 108 rejected, then a call at 120 (past 105 + 10) admitted again. -/
theorem rate_limiter_window_spec_witness :
    (runCalls (RateLimiter.new 2 10) [100, 105]).1 = [true, true] ∧
    (is_allowed 108 (runCalls (RateLimiter.new 2 10) [100, 105]).2).1 = false ∧
    (is_allowed 120
      (is_allowed 108 (runCalls (RateLimiter.new 2 10) [100, 105]).2).2).1
      = true := by
  have h := rate_limiter_window_spec 2 10 100 [100, 105] 108
    (by decide) (by decide) (by decide) (by decide) (by decide)
  exact ⟨h.1, h.2.1, h.2.2 120 (by decide)⟩

/-- One `is_allowed` step keeps the stored-timestamp count at or below the
limit, provided it was at or below before. -/
theorem is_allowed_len_le (now : Nat) (rl : RateLimiter)
    (h : rl.requests.length ≤ rl.limit) :
    (is_allowed now rl).2.requests.length ≤ rl.limit := by
  by_cases hc :
      (rl.requests.filter (fun ts => decide (now - rl.window ≤ ts))).length
        < rl.limit
  · simp only [is_allowed, if_pos hc]
    simp only [List.length_append, List.length_cons, List.length_nil]
    omega
  · simp only [is_allowed, if_neg hc]
    exact le_trans (List.length_filter_le _ _) h

theorem is_allowed_limit_eq (now : Nat) (rl : RateLimiter) :
    (is_allowed now rl).2.limit = rl.limit := by
  simp only [is_allowed]
  split <;> rfl

/-- The reachability invariant: after any sequence of `is_allowed` calls the
stored-timestamp count stays at or below the (unchanged) limit. -/
theorem runCalls_requests_le (times : List Nat) :
    ∀ rl : RateLimiter, rl.requests.length ≤ rl.limit →
      (runCalls rl times).2.requests.length ≤ (runCalls rl times).2.limit ∧
      (runCalls rl times).2.limit = rl.limit := by
  induction times with
  | nil =>
    intro rl h
    exact ⟨h, rfl⟩
  | cons u rest ih =>
    intro rl h
    have h1 := is_allowed_len_le u rl h
    have h2 := is_allowed_limit_eq u rl
    obtain ⟨ha, hb⟩ := ih (is_allowed u rl).2 (by rw [h2]; exact h1)
    refine ⟨?_, ?_⟩
    · simpa [runCalls] using ha
    · simp only [runCalls]
      rw [hb, h2]

/-- C2: after any sequence of `is_allowed` calls on a fresh limiter with
limit `L` (`current_count` never mutates, so such sequences cover all
interleavings), the stored-timestamp count is at most `L`, and
`current_count` at any clock reading reports at most `L`. -/
theorem rate_limiter_count_invariant (L W : Nat) (times : List Nat) (now : Nat) :
    (runCalls (RateLimiter.new L W) times).2.requests.length ≤ L ∧
    current_count now (runCalls (RateLimiter.new L W) times).2 ≤ L := by
  obtain ⟨ha, hb⟩ := runCalls_requests_le times (RateLimiter.new L W)
    (by simp [RateLimiter.new])
  rw [hb] at ha
  refine ⟨ha, ?_⟩
  simp only [current_count]
  exact le_trans (List.length_filter_le _ _) ha

/-- C3: from any state satisfying the reachability invariant (stored count
at most the limit, which `runCalls_requests_le` shows holds for every state
a fresh limiter can reach), a rejected `is_allowed` call leaves the stored
timestamp sequence exactly as it was. -/
theorem rate_limiter_reject_frame (now : Nat) (rl : RateLimiter)
    (hinv : rl.requests.length ≤ rl.limit)
    (hrej : (is_allowed now rl).1 = false) :
    (is_allowed now rl).2.requests = rl.requests := by
  by_cases hc :
      (rl.requests.filter (fun ts => decide (now - rl.window ≤ ts))).length
        < rl.limit
  · exfalso
    simp only [is_allowed, if_pos hc] at hrej
    exact Bool.noConfusion hrej
  · simp only [is_allowed, if_neg hc]
    have hle := Nat.not_lt.mp hc
    have hfl := List.length_filter_le
      (fun ts => decide (now - rl.window ≤ ts)) rl.requests
    exact List.Sublist.eq_of_length (List.filter_sublist _) (by omega)

/-- Witness for C3: limit 2, window 10, log `[100, 101]`, a call at 105 is
rejected and the log is untouched. -/
theorem rate_limiter_reject_frame_witness :
    (is_allowed 105
      { requests := [100, 101], limit := 2, window := 10 }).2.requests
      = [100, 101] :=
  rate_limiter_reject_frame 105
    { requests := [100, 101], limit := 2, window := 10 }
    (by decide) (by decide)

/-! ## Retry with exponential backoff (src/utils.rs, `retry_with_backoff`)

The operation closure (an `FnMut`, whose successive invocations may differ)
is modelled as a function from the invocation index to its outcome.  The
embedding returns, beside the Rust return value, the total number of
invocations performed and the list of delays slept (so the backoff doubling
is observable); `tokio::time::sleep` itself has no functional content. -/

/-- The loop body of `retry_with_backoff`: `attempt` is the Rust loop
counter, `delay` the current delay, and `remaining = max_retries - attempt`
(so `remaining = 0` exactly when `attempt == max_retries`, the branch that
propagates the error). -/
def retryGo {E T : Type} (op : Nat → Except E T) :
    Nat → Nat → Nat → Except E T × Nat × List Nat
  | attempt, _, 0 =>
    match op attempt with
    | .ok r => (.ok r, attempt + 1, [])
    | .error e => (.error e, attempt + 1, [])
  | attempt, delay, r + 1 =>
    match op attempt with
    | .ok v => (.ok v, attempt + 1, [])
    | .error _ =>
      let res := retryGo op (attempt + 1) (delay * 2) r
      (res.1, res.2.1, delay :: res.2.2)

/-- Rust `retry_with_backoff(operation, max_retries, initial_delay)`. -/
def retry_with_backoff {E T : Type} (op : Nat → Except E T)
    (max_retries : Nat) (initial_delay : Nat) : Except E T × Nat × List Nat :=
  retryGo op 0 initial_delay max_retries
/-- Unfolding step: a successful invocation returns immediately. -/
theorem retryGo_ok {E T : Type} (op : Nat → Except E T) (a d r : Nat) (v : T)
    (h : op a = .ok v) : retryGo op a d r = (.ok v, a + 1, []) := by
  cases r with
  | zero => simp only [retryGo, h]
  | succ n => simp only [retryGo, h]

/-- Unfolding step: a failure with `attempt == max_retries` propagates. -/
theorem retryGo_err_zero {E T : Type} (op : Nat → Except E T) (a d : Nat) (e : E)
    (h : op a = .error e) : retryGo op a d 0 = (.error e, a + 1, []) := by
  simp only [retryGo, h]

/-- Unfolding step: a failure with retries left sleeps `d`, doubles it, and
retries. -/
theorem retryGo_err_succ {E T : Type} (op : Nat → Except E T) (a d r : Nat)
    (e : E) (h : op a = .error e) :
    retryGo op a d (r + 1)
      = ((retryGo op (a + 1) (d * 2) r).1,
         (retryGo op (a + 1) (d * 2) r).2.1,
         d :: (retryGo op (a + 1) (d * 2) r).2.2) := by
  simp only [retryGo, h]

theorem retryGo_count_le {E T : Type} (op : Nat → Except E T) :
    ∀ r a d, (retryGo op a d r).2.1 ≤ a + r + 1 := by
  intro r
  induction r with
  | zero =>
    intro a d
    cases hop : op a with
    | ok v => rw [retryGo_ok op a d 0 v hop]
    | error e => rw [retryGo_err_zero op a d e hop]
  | succ r ih =>
    intro a d
    cases hop : op a with
    | ok v =>
      rw [retryGo_ok op a d (r + 1) v hop]
      show a + 1 ≤ a + (r + 1) + 1
      omega
    | error e =>
      rw [retryGo_err_succ op a d r e hop]
      have h := ih (a + 1) (d * 2)
      show (retryGo op (a + 1) (d * 2) r).2.1 ≤ a + (r + 1) + 1
      omega

/-- Collapsing the doubled-delay list: `d` then the doubling sequence
starting at `2d` is the doubling sequence starting at `d`, one longer. -/
theorem delay_list_cons (d k : Nat) :
    d :: (List.range k).map (fun i => d * 2 * 2 ^ i)
      = (List.range (k + 1)).map (fun i => d * 2 ^ i) := by
  rw [List.range_succ_eq_map, List.map_cons, List.map_map]
  refine congrArg₂ (· :: ·) (by simp) ?_
  refine List.map_congr_left ?_
  intro i _
  simp only [Function.comp_apply, Nat.succ_eq_add_one, pow_succ]
  ring

theorem retryGo_first_success {E T : Type} (op : Nat → Except E T) :
    ∀ k r a d v, k ≤ r →
      (∀ i, i < k → ∃ e, op (a + i) = .error e) →
      op (a + k) = .ok v →
      retryGo op a d r
        = (.ok v, a + k + 1, (List.range k).map (fun i => d * 2 ^ i)) := by
  intro k
  induction k with
  | zero =>
    intro r a d v _ _ hsucc
    simp only [Nat.add_zero] at hsucc
    rw [retryGo_ok op a d r v hsucc]
    simp
  | succ k ih =>
    intro r a d v hkr hfail hsucc
    obtain ⟨e0, he0⟩ := hfail 0 (Nat.succ_pos k)
    simp only [Nat.add_zero] at he0
    obtain ⟨r', rfl⟩ : ∃ r', r = r' + 1 := by
      cases r with
      | zero => omega
      | succ n => exact ⟨n, rfl⟩
    have hrec := ih r' (a + 1) (d * 2) v (by omega)
      (by
        intro i hi
        obtain ⟨e, he⟩ := hfail (i + 1) (by omega)
        exact ⟨e, by rw [show a + 1 + i = a + (i + 1) by omega]; exact he⟩)
      (by rw [show a + 1 + k = a + (k + 1) by omega]; exact hsucc)
    rw [retryGo_err_succ op a d r' e0 he0, hrec]
    show (Except.ok v, a + 1 + k + 1,
        d :: (List.range k).map (fun i => d * 2 * 2 ^ i))
      = (Except.ok v, a + (k + 1) + 1,
        (List.range (k + 1)).map (fun i => d * 2 ^ i))
    rw [delay_list_cons d k, show a + 1 + k + 1 = a + (k + 1) + 1 by omega]

theorem retryGo_all_fail {E T : Type} (op : Nat → Except E T) :
    ∀ r a d e,
      (∀ i, i < r → ∃ e2, op (a + i) = .error e2) →
      op (a + r) = .error e →
      retryGo op a d r
        = (.error e, a + r + 1, (List.range r).map (fun i => d * 2 ^ i)) := by
  intro r
  induction r with
  | zero =>
    intro a d e _ hlast
    simp only [Nat.add_zero] at hlast
    rw [retryGo_err_zero op a d e hlast]
    simp
  | succ r ih =>
    intro a d e hfail hlast
    obtain ⟨e0, he0⟩ := hfail 0 (Nat.succ_pos r)
    simp only [Nat.add_zero] at he0
    have hrec := ih (a + 1) (d * 2) e
      (by
        intro i hi
        obtain ⟨e2, he⟩ := hfail (i + 1) (by omega)
        exact ⟨e2, by rw [show a + 1 + i = a + (i + 1) by omega]; exact he⟩)
      (by rw [show a + 1 + r = a + (r + 1) by omega]; exact hlast)
    rw [retryGo_err_succ op a d r e0 he0, hrec]
    show (Except.error e, a + 1 + r + 1,
        d :: (List.range r).map (fun i => d * 2 * 2 ^ i))
      = (Except.error e, a + (r + 1) + 1,
        (List.range (r + 1)).map (fun i => d * 2 ^ i))
    rw [delay_list_cons d r, show a + 1 + r + 1 = a + (r + 1) + 1 by omega]

/-- C4: `retry_with_backoff op max_retries initial_delay` performs at most
`max_retries + 1` invocations; if the first success is invocation `k`
(`k ≤ max_retries`, all earlier invocations failing), it returns that
success value after exactly `k + 1` invocations, having slept the doubling
delays `d, 2d, …, 2^(k-1)·d` (no cap); and if every one of the
`max_retries + 1` invocations fails, it propagates the error of the last
invocation after exactly `max_retries + 1` invocations. -/
theorem retry_with_backoff_spec {E T : Type} (op : Nat → Except E T)
    (m d : Nat) :
    (retry_with_backoff op m d).2.1 ≤ m + 1 ∧
    (∀ k v, k ≤ m → (∀ i, i < k → ∃ e, op i = .error e) → op k = .ok v →
      retry_with_backoff op m d
        = (.ok v, k + 1, (List.range k).map (fun i => d * 2 ^ i))) ∧
    (∀ e, (∀ i, i < m → ∃ e2, op i = .error e2) → op m = .error e →
      retry_with_backoff op m d
        = (.error e, m + 1, (List.range m).map (fun i => d * 2 ^ i))) := by
  refine ⟨?_, ?_, ?_⟩
  · have h := retryGo_count_le op m 0 d
    simpa [retry_with_backoff] using h
  · intro k v hkm hfail hsucc
    have h := retryGo_first_success op k m 0 d v hkm
      (by simpa using hfail) (by simpa using hsucc)
    simpa [retry_with_backoff] using h
  · intro e hfail hlast
    have h := retryGo_all_fail op m 0 d e
      (by simpa using hfail) (by simpa using hlast)
    simpa [retry_with_backoff] using h

/-- Witness for C4, the spec's example: an operation failing twice then
succeeding, `max_retries = 5`, `initial_delay = 1`: it returns the success
value after exactly 3 invocations, having slept delays 1 then 2. -/
theorem retry_with_backoff_spec_witness :
    retry_with_backoff
      (fun i => if i < 2 then Except.error 0 else Except.ok 7) 5 1
      = (Except.ok 7, 3, [1, 2]) := by
  have h := (retry_with_backoff_spec
      (fun i => if i < 2 then Except.error 0 else Except.ok 7) 5 1).2.1
      2 7 (by decide)
      (fun i hi => ⟨0, if_pos hi⟩)
      (by simp)
  simpa using h

/-! ## Health checker (src/utils.rs, `HealthChecker`)

A probe is a boxed closure returning `Result<()>`; its outcome at the one
point `check_health` invokes it is modelled as an `Except E Unit` value, so
the checker state (`add_check` appends, never removes) is the list of
probe outcomes in insertion order.  To make "which probes were invoked"
observable, the embedding also returns the list of invoked indices. -/

/-- The `for (i, check) in checks.iter().enumerate()` loop of
`check_health`, started at index `i`: stops at the first failing probe,
returning its error; returns `Ok(())` past the end. -/
def checkHealthAux {E : Type} : List (Except E Unit) → Nat → Except E Unit × List Nat
  | [], _ => (.ok (), [])
  | c :: cs, i =>
    match c with
    | .error e => (.error e, [i])
    | .ok _ =>
      let res := checkHealthAux cs (i + 1)
      (res.1, i :: res.2)

/-- Rust `HealthChecker::check_health`: run the probes in insertion order from
index 0. -/
def check_health {E : Type} (checks : List (Except E Unit)) :
    Except E Unit × List Nat :=
  checkHealthAux checks 0

/-- Shifting an index-offset list of invoked probes by one position. -/
theorem invoked_list_cons (i k : Nat) :
    i :: (List.range k).map (i + 1 + ·) = (List.range (k + 1)).map (i + ·) := by
  rw [List.range_succ_eq_map, List.map_cons, List.map_map]
  refine congrArg₂ (· :: ·) (by simp) ?_
  refine List.map_congr_left ?_
  intro j _
  simp only [Function.comp_apply, Nat.succ_eq_add_one]
  omega

theorem checkHealthAux_first_fail {E : Type} :
    ∀ (k : Nat) (cs : List (Except E Unit)) (i : Nat) (e : E),
      cs[k]? = some (.error e) →
      (∀ j, j < k → cs[j]? = some (.ok ())) →
      checkHealthAux cs i = (.error e, (List.range (k + 1)).map (i + ·)) := by
  intro k
  induction k with
  | zero =>
    intro cs i e hk _
    cases cs with
    | nil => simp at hk
    | cons c cs' =>
      simp only [List.getElem?_cons_zero] at hk
      have hc : c = .error e := Option.some.inj hk
      subst hc
      simp [checkHealthAux, show List.range 1 = [0] from rfl]
  | succ k ih =>
    intro cs i e hk hok
    cases cs with
    | nil => simp at hk
    | cons c cs' =>
      have hc : c = .ok () := by
        have h0 := hok 0 (Nat.succ_pos k)
        simp only [List.getElem?_cons_zero] at h0
        exact Option.some.inj h0
      subst hc
      have hrec := ih cs' (i + 1) e (by simpa using hk)
        (by
          intro j hj
          have := hok (j + 1) (by omega)
          simpa using this)
      simp only [checkHealthAux, hrec]
      exact congrArg (fun l => (Except.error e, l)) (invoked_list_cons i (k + 1))

theorem checkHealthAux_all_ok {E : Type} :
    ∀ (cs : List (Except E Unit)) (i : Nat),
      (∀ c ∈ cs, c = .ok ()) →
      checkHealthAux cs i = (.ok (), (List.range cs.length).map (i + ·)) := by
  intro cs
  induction cs with
  | nil =>
    intro i _
    simp [checkHealthAux]
  | cons c cs' ih =>
    intro i hall
    have hc : c = .ok () := hall c (by simp)
    subst hc
    have hrec := ih (i + 1) (fun c hc => hall c (by simp [hc]))
    simp only [checkHealthAux, hrec, List.length_cons]
    exact congrArg (fun l => (Except.ok (), l)) (invoked_list_cons i cs'.length)

theorem checkHealthAux_ok_iff {E : Type} :
    ∀ (cs : List (Except E Unit)) (i : Nat),
      (checkHealthAux cs i).1 = .ok () ↔ ∀ c ∈ cs, c = .ok () := by
  intro cs
  induction cs with
  | nil =>
    intro i
    simp [checkHealthAux]
  | cons c cs' ih =>
    intro i
    cases c with
    | error e => simp [checkHealthAux]
    | ok u =>
      cases u
      simpa [checkHealthAux] using ih (i + 1)

/-- C5: `check_health` runs the probes strictly in insertion order: if probe
`k` is the first failure (all earlier probes succeed), the run returns that
probe's error having invoked exactly probes `0, …, k` (later probes are
never invoked); the run succeeds iff every probe succeeds, in which case
every probe was invoked, in order. -/
theorem check_health_spec {E : Type} (checks : List (Except E Unit)) :
    (∀ k e, checks[k]? = some (.error e) →
      (∀ j, j < k → checks[j]? = some (.ok ())) →
      check_health checks = (.error e, List.range (k + 1))) ∧
    ((check_health checks).1 = .ok () ↔ ∀ c ∈ checks, c = .ok ()) ∧
    ((∀ c ∈ checks, c = .ok ()) →
      check_health checks = (.ok (), List.range checks.length)) := by
  refine ⟨?_, ?_, ?_⟩
  · intro k e hk hok
    have h := checkHealthAux_first_fail k checks 0 e hk hok
    simpa [check_health] using h
  · simpa [check_health] using checkHealthAux_ok_iff checks 0
  · intro hall
    have h := checkHealthAux_all_ok checks 0 hall
    simpa [check_health] using h

/-- Witness for C5, the spec's example: probes `[Ok, Err 3, Ok]` produce
`Err 3` with only probes 0 and 1 invoked — the third is never run. -/
theorem check_health_spec_witness :
    check_health [Except.ok (), Except.error 3, Except.ok ()]
      = (Except.error 3, [0, 1]) := by
  have h := (check_health_spec
      [Except.ok (), Except.error 3, Except.ok ()]).1 1 3 rfl
    (by
      intro j hj
      have hj0 : j = 0 := by omega
      subst hj0
      rfl)
  simpa using h

/-! ## Configuration (src/config.rs)

The four nested config groups, with `PathBuf` modelled as `String` and the
integer field widths as `Nat`.  Rust `String::len` is the UTF-8 byte
length, embedded as `String.utf8ByteSize` (equal to the character count on
ASCII data such as every secret appearing in the claims). -/

structure ServerConfig where
  host : String
  port : Nat
  max_connections : Nat
  timeout : Nat
  tls_enabled : Bool
  tls_cert_path : Option String
  tls_key_path : Option String

structure DatabaseConfig where
  url : String
  max_connections : Nat
  timeout : Nat
  pool_enabled : Bool

structure LoggingConfig where
  level : String
  format : String
  file_path : Option String
  console_enabled : Bool
  structured : Bool

structure SecurityConfig where
  jwt_secret : String
  jwt_expiration : Nat
  rate_limiting_enabled : Bool
  rate_limit_rpm : Nat
  cors_enabled : Bool
  cors_origins : List String

structure Config where
  server : ServerConfig
  database : DatabaseConfig
  logging : LoggingConfig
  security : SecurityConfig

/-- Rust `Config::default` (src/config.rs lines 105-140), field for field. -/
def default_config : Config :=
  { server :=
      { host := "127.0.0.1"
        port := 8080
        max_connections := 1000
        timeout := 30
        tls_enabled := false
        tls_cert_path := none
        tls_key_path := none }
    database :=
      { url := "postgresql://localhost/myapp"
        max_connections := 10
        timeout := 30
        pool_enabled := true }
    logging :=
      { level := "info"
        format := "pretty"
        file_path := none
        console_enabled := true
        structured := false }
    security :=
      { jwt_secret := "your-secret-key"
        jwt_expiration := 24
        rate_limiting_enabled := true
        rate_limit_rpm := 100
        cors_enabled := true
        cors_origins := ["http://localhost:3000"] } }

/-- The `valid_log_levels` array of `Config::validate`. -/
def valid_log_levels : List String := ["trace", "debug", "info", "warn", "error"]

/-- Rust `Config::validate` (src/config.rs lines 199-221): the four checks in
source order.  `is_empty()` is `= ""`; `len()` is `utf8ByteSize`. -/
def validate (c : Config) : Except Error Unit :=
  if c.server.port = 0 then
    .error (.Config "Server port cannot be 0")
  else if c.database.url = "" then
    .error (.Config "Database URL cannot be empty")
  else if c.security.jwt_secret.utf8ByteSize < 32 then
    .error (.Config "JWT secret must be at least 32 characters")
  else if ¬ (valid_log_levels.contains c.logging.level = true) then
    .error (.Config ("Invalid log level: " ++ c.logging.level
      ++ ". Valid levels: [\x22trace\x22, \x22debug\x22, \x22info\x22, \x22warn\x22, \x22error\x22]"))
  else
    .ok ()

/-- Validation success, characterised. -/
theorem validate_eq_ok_iff (c : Config) :
    validate c = .ok () ↔
      (c.server.port ≠ 0 ∧ c.database.url ≠ "" ∧
       ¬ c.security.jwt_secret.utf8ByteSize < 32 ∧
       valid_log_levels.contains c.logging.level = true) := by
  unfold validate
  split_ifs with h1 h2 h3 h4 <;> simp_all

/-- C6: `validate` returns an error iff `server.port = 0`, or the database
URL is empty, or the JWT secret is shorter than 32 (bytes — Rust
`String::len`; identical to the character count on ASCII secrets), or the
log level is not one of trace/debug/info/warn/error; with none of those,
it succeeds. -/
theorem validate_error_iff (c : Config) :
    (∃ e, validate c = .error e) ↔
      (c.server.port = 0 ∨ c.database.url = "" ∨
       c.security.jwt_secret.utf8ByteSize < 32 ∨
       ¬ c.logging.level ∈ valid_log_levels) := by
  have hok := validate_eq_ok_iff c
  constructor
  · intro ⟨e, he⟩
    by_contra hnone
    push_neg at hnone
    obtain ⟨hp, hu, hj, hl⟩ := hnone
    have : validate c = .ok () :=
      hok.mpr ⟨hp, hu, Nat.not_lt.mpr hj, by simpa using hl⟩
    rw [this] at he
    exact Except.noConfusion he
  · intro hbad
    cases hv : validate c with
    | error e => exact ⟨e, rfl⟩
    | ok u =>
      cases u
      obtain ⟨hp, hu, hj, hl⟩ := hok.mp hv
      rcases hbad with h | h | h | h
      · exact absurd h hp
      · exact absurd h hu
      · exact absurd h hj
      · exact absurd (by simpa using hl) h

/-! ## Configuration loading (src/config.rs, `Config::load`)

The process environment is modelled as a partial map
`env : String → Option String` (`std::env::var` returning `Ok`/`Err`).
`Config::load_from_file` does filesystem I/O and JSON parsing; its outcome
is abstracted as a parameter `fileResult : Option (Except Error Config)`:
`none` models `CONFIG_FILE` being unset (the load-from-file step is
skipped), `some r` models `CONFIG_FILE` set with `r` the read-and-parse
outcome, which on success wholesale-replaces the configuration. -/

/-- An `Option::unwrap_or`-style override: the environment value if present. -/
def env_override (v : Option String) (old : String) : String :=
  match v with
  | some s => s
  | none => old

/-- Rust `port.parse::<u16>()`: digits only, value below 2^16.  (Rust also
accepts a leading `+`; the difference does not matter here — a parse
the model accepts and Rust rejects would only turn one failing load into
another failing load.) -/
def parse_u16 (s : String) : Option Nat :=
  match s.toNat? with
  | some n => if n < 65536 then some n else none
  | none => none

/-- The `SERVER_PORT` handling of `load_from_env`: absent keeps the old
port, present must parse or the whole load fails. -/
def port_from_env (env : String → Option String) (old : Nat) : Except Error Nat :=
  match env "SERVER_PORT" with
  | none => .ok old
  | some p =>
    match parse_u16 p with
    | some n => .ok n
    | none => .error (.Config "Invalid SERVER_PORT")

/-- Rust `Config::load_from_env` (src/config.rs lines 162-185): override host,
port, database URL, log level and JWT secret from the environment; only a
malformed `SERVER_PORT` fails. -/
def load_from_env (env : String → Option String) (c : Config) : Except Error Config :=
  match port_from_env env c.server.port with
  | .error e => .error e
  | .ok n =>
    .ok { server := { c.server with
            host := env_override (env "SERVER_HOST") c.server.host
            port := n }
          database := { c.database with
            url := env_override (env "DATABASE_URL") c.database.url }
          logging := { c.logging with
            level := env_override (env "LOG_LEVEL") c.logging.level }
          security := { c.security with
            jwt_secret := env_override (env "JWT_SECRET") c.security.jwt_secret } }

/-- Rust `Config::load` (src/config.rs lines 144-159): defaults, then
environment overrides, then (if `CONFIG_FILE` is set) wholesale replacement
by the file's parsed contents, then validation. -/
def load (env : String → Option String)
    (fileResult : Option (Except Error Config)) : Except Error Config :=
  match load_from_env env default_config with
  | .error e => .error e
  | .ok c =>
    match fileResult with
    | some (.error e) => .error e
    | some (.ok c2) =>
      match validate c2 with
      | .error e => .error e
      | .ok _ => .ok c2
    | none =>
      match validate c with
      | .error e => .error e
      | .ok _ => .ok c

/-- A short JWT secret alone makes `validate` fail. -/
theorem validate_not_ok_of_short_jwt (c : Config)
    (h : c.security.jwt_secret.utf8ByteSize < 32) :
    isOk (validate c) = false := by
  cases hv : validate c with
  | error e => rfl
  | ok u =>
    cases u
    obtain ⟨_, _, hj, _⟩ := (validate_eq_ok_iff c).mp hv
    exact absurd h hj

/-- C10: the default configuration does not validate — its
`jwt_secret = "your-secret-key"` has length 15 < 32, so `validate` returns
the JWT `Config` error — and consequently `load` fails whenever neither the
`JWT_SECRET` environment variable nor the config file supplies a secret of
at least 32 bytes (in particular whatever `SERVER_PORT` does). -/
theorem default_config_invalid :
    (default_config.security.jwt_secret = "your-secret-key" ∧
     default_config.security.jwt_secret.utf8ByteSize = 15 ∧
     validate default_config
       = .error (.Config "JWT secret must be at least 32 characters")) ∧
    ∀ (env : String → Option String) (fileResult : Option (Except Error Config)),
      (∀ s, env "JWT_SECRET" = some s → s.utf8ByteSize < 32) →
      (∀ c, fileResult = some (.ok c) → c.security.jwt_secret.utf8ByteSize < 32) →
      isOk (load env fileResult) = false := by
  refine ⟨⟨rfl, rfl, rfl⟩, ?_⟩
  intro env fileResult hjwt hfile
  cases henv : load_from_env env default_config with
  | error e => simp [load, henv, isOk]
  | ok c =>
    have hshort : c.security.jwt_secret.utf8ByteSize < 32 := by
      unfold load_from_env at henv
      cases hp : port_from_env env default_config.server.port with
      | error e =>
        rw [hp] at henv
        exact Except.noConfusion henv
      | ok n =>
        rw [hp] at henv
        have hc := Except.ok.inj henv
        rw [← hc]
        cases hs : env "JWT_SECRET" with
        | some s => exact hjwt s hs
        | none =>
          show ("your-secret-key" : String).utf8ByteSize < 32
          decide
    cases fileResult with
    | none =>
      have hv := validate_not_ok_of_short_jwt c hshort
      cases hval : validate c with
      | error e => simp [load, henv, hval, isOk]
      | ok u =>
        rw [hval] at hv
        exact Bool.noConfusion hv
    | some r =>
      cases r with
      | error e => simp [load, henv, isOk]
      | ok c2 =>
        have hs2 := hfile c2 rfl
        have hv := validate_not_ok_of_short_jwt c2 hs2
        cases hval : validate c2 with
        | error e => simp [load, henv, hval, isOk]
        | ok u =>
          rw [hval] at hv
          exact Bool.noConfusion hv

/-- Witness for C10: an empty environment and no config file — `load`
fails. -/
theorem default_config_invalid_witness :
    isOk (load (fun _ => none) none) = false :=
  default_config_invalid.2 (fun _ => none) none
    (fun s h => Option.noConfusion h)
    (fun c h => Option.noConfusion h)

/-! ## Data processing and the POST /process route
(src/lib.rs `process_data`, src/bin/server.rs `handle_connection`,
`extract_body`, `create_response`)

`str::to_uppercase` is embedded by its action on ASCII data (every input in
the source and the claims is ASCII): uppercase character by character.
`str::find` is embedded as a first-occurrence scan over the character
list. -/

/-- Rust `to_uppercase`, character by character. -/
def to_uppercase (s : String) : String :=
  String.mk (s.data.map Char.toUpper)

/-- Rust `process_data` (src/lib.rs lines 13-19): reject empty input, else
prefix the uppercased input with `Processed: `. -/
def process_data (input : String) : Except Error String :=
  if input = "" then .error (.InvalidInput "Input cannot be empty")
  else .ok ("Processed: " ++ to_uppercase input)

/-- The `Display` rendering of `error::Error` (the `#[error(...)]`
attributes of src/error.rs), used when the handler formats an error into
the response JSON. -/
def Error.display : Error → String
  | .InvalidInput m => "Invalid input: " ++ m
  | .Config m => "Configuration error: " ++ m
  | .Io m => "IO error: " ++ m
  | .Serialization m => "Serialization error: " ++ m
  | .Network m => "Network error: " ++ m
  | .Database m => "Database error: " ++ m
  | .Auth m => "Authentication error: " ++ m
  | .Permission m => "Permission denied: " ++ m
  | .NotFound m => "Resource not found: " ++ m
  | .Internal m => "Internal server error: " ++ m

/-- The suffix of `l` strictly after the first occurrence of `pat`
(`request.find(sep)` followed by slicing at `index + sep.len()`), or `none`
when `pat` does not occur. -/
def afterSep (pat : List Char) : List Char → Option (List Char)
  | [] => if pat.isPrefixOf [] then some (List.drop pat.length []) else none
  | c :: rest =>
    if pat.isPrefixOf (c :: rest) then some (List.drop pat.length (c :: rest))
    else afterSep pat rest

/-- Rust `extract_body` (src/bin/server.rs lines 190-199): everything after the
first `CRLF CRLF`, else everything after the first `LF LF`, else empty. -/
def extract_body (request : String) : String :=
  match afterSep ("\r\n\r\n".data) request.data with
  | some rest => String.mk rest
  | none =>
    match afterSep ("\n\n".data) request.data with
    | some rest => String.mk rest
    | none => ""

/-- Rust `create_response` (src/bin/server.rs lines 201-210); `body.len()` is
the UTF-8 byte length. -/
def create_response (status_code : Nat)
    (status_text content_type body : String) : String :=
  "HTTP/1.1 " ++ toString status_code ++ " " ++ status_text
    ++ "\r\nContent-Type: " ++ content_type
    ++ "\r\nContent-Length: " ++ toString body.utf8ByteSize
    ++ "\r\nConnection: close\r\n\r\n" ++ body

/-- The `("POST", "/process")` arm of `handle_connection`
(src/bin/server.rs lines 143-156): extract the body, process it, and wrap
the result (status 200) or the error display (status 400) in the JSON
template of the source. -/
def handle_post_process (request : String) : String :=
  match process_data (extract_body request) with
  | .ok result =>
    create_response 200 "OK" "application/json"
      ("\x7b\x22result\x22:\x22" ++ result ++ "\x22,\x22status\x22:\x22success\x22\x7d")
  | .error e =>
    create_response 400 "Bad Request" "application/json"
      ("\x7b\x22error\x22:\x22" ++ e.display ++ "\x22,\x22status\x22:\x22error\x22\x7d")

/-- C8: a POST /process request whose extracted body is empty gets the 400
Bad Request response with the error JSON (the `InvalidInput` display); one
whose extracted body is `"hello"` gets the 200 OK response whose `result`
field is `Processed: HELLO`, the uppercased, prefixed transform. -/
theorem post_process_spec (request : String) :
    (extract_body request = "" →
      handle_post_process request
        = create_response 400 "Bad Request" "application/json"
            "\x7b\x22error\x22:\x22Invalid input: Input cannot be empty\x22,\x22status\x22:\x22error\x22\x7d") ∧
    (extract_body request = "hello" →
      handle_post_process request
        = create_response 200 "OK" "application/json"
            "\x7b\x22result\x22:\x22Processed: HELLO\x22,\x22status\x22:\x22success\x22\x7d") := by
  constructor
  · intro h
    unfold handle_post_process
    rw [h]
    rfl
  · intro h
    unfold handle_post_process
    rw [h]
    rfl

/-- Witness for C8 on two concrete requests: one with an empty body after
the blank-line separator, one with body `hello`. -/
theorem post_process_spec_witness :
    handle_post_process "POST /process HTTP/1.1\r\nHost: localhost\r\n\r\n"
      = create_response 400 "Bad Request" "application/json"
          "\x7b\x22error\x22:\x22Invalid input: Input cannot be empty\x22,\x22status\x22:\x22error\x22\x7d" ∧
    handle_post_process "POST /process HTTP/1.1\r\nHost: localhost\r\n\r\nhello"
      = create_response 200 "OK" "application/json"
          "\x7b\x22result\x22:\x22Processed: HELLO\x22,\x22status\x22:\x22success\x22\x7d" :=
  ⟨(post_process_spec "POST /process HTTP/1.1\r\nHost: localhost\r\n\r\n").1
      (by decide),
   (post_process_spec "POST /process HTTP/1.1\r\nHost: localhost\r\n\r\nhello").2
      (by decide)⟩

/-! ## The GET /health response body (src/bin/server.rs lines 139-142) -/

/-- The `("GET", "/health")` body:
`r#"...status...healthy...timestamp..."#.to_string() + &timestamp.to_string() + "}"` —
the raw-string prefix (an object opened and left unterminated), then the
decimal timestamp, then the closing brace. -/
def health_body (t : Nat) : String :=
  "\x7b\x22status\x22:\x22healthy\x22,\x22timestamp\x22:" ++ toString t ++ "\x7d"

/-- Flat JSON values, enough to describe the health body. -/
inductive JsonVal where
  | num : Nat → JsonVal
  | str : String → JsonVal

/-- Standard JSON rendering of a flat value. -/
def renderVal : JsonVal → String
  | .num n => toString n
  | .str s => "\x22" ++ s ++ "\x22"

/-- Standard JSON rendering of the comma-separated members of an object. -/
def renderMembers : List (String × JsonVal) → String
  | [] => ""
  | [kv] => "\x22" ++ kv.1 ++ "\x22:" ++ renderVal kv.2
  | kv :: rest =>
    "\x22" ++ kv.1 ++ "\x22:" ++ renderVal kv.2 ++ "," ++ renderMembers rest

/-- Standard JSON rendering of a flat object (keys and values in play need
no escaping). -/
def renderObj (kvs : List (String × JsonVal)) : String :=
  "\x7b" ++ renderMembers kvs ++ "\x7d"

/-- A string is a well-formed flat JSON object when it is the rendering of
some member list. -/
def IsWellFormedJsonObject (s : String) : Prop :=
  ∃ kvs, renderObj kvs = s

/-- C9 counterexample: at timestamp 0 the `/health` body is exactly the
standard rendering of the object with members `status := "healthy"` and
`timestamp := 0` — well-formed JSON, refuting the claimed malformedness
(the raw-string prefix leaves the object open, and the appended timestamp
and closing brace terminate it correctly). -/
theorem health_body_wellformed_at_zero :
    renderObj [("status", JsonVal.str "healthy"), ("timestamp", JsonVal.num 0)]
      = health_body 0 ∧
    IsWellFormedJsonObject (health_body 0) :=
  ⟨rfl,
   ⟨[("status", JsonVal.str "healthy"), ("timestamp", JsonVal.num 0)], rfl⟩⟩

/-- C9 (amended): for every timestamp `t` the `/health` body is well-formed
JSON — the standard rendering of the two-member object with `status` set to
`healthy` and `timestamp` set to `t`. -/
theorem health_body_wellformed (t : Nat) :
    renderObj [("status", JsonVal.str "healthy"), ("timestamp", JsonVal.num t)]
      = health_body t ∧
    IsWellFormedJsonObject (health_body t) := by
  have h : renderObj
      [("status", JsonVal.str "healthy"), ("timestamp", JsonVal.num t)]
      = health_body t := by
    simp only [renderObj, renderMembers, renderVal, health_body]
    simp only [← String.append_assoc]
    rfl
  exact ⟨h, ⟨_, h⟩⟩
